import Mathlib

/-!
Verification of the `json` value model (`Object`) and substring parser
(`Parser`) of cpplibutil (`src/json_unstructured.cpp`,
`src/include/json_unstructured.h`).

The C++ `Object` is a `boost::variant<boost::blank, NullType, std::string,
std::int64_t, double, bool, std::vector<Object>, std::map<std::string,
Object>>`.  We embed it as a mutual inductive family: `Object` for the
variant, `ObjList` for `std::vector<Object>`, and `ObjMap` for
`std::map<std::string, Object>` (a key-sorted unique-key list; sortedness
is an invariant stated separately, exactly as `std::map` guarantees it by
construction).

Machine integers: the C++ `Int` alias is `std::int64_t`; we use `Int` and
carry explicit range conditions where the code's use of 32-bit
`util::extract<int>` matters.  `double` payloads are modelled as exact
rationals (`ℚ`); no claim evaluates floating-point arithmetic, rounding or
formatting, and definitions that would need IEEE-754 semantics say so in
their doc comments.

Strings are processed as `List Char`; the ASCII subset exercised by the
code makes Lean's per-character model coincide with the C++ byte model.
-/

namespace JsonUtil

/-- C++ exception kinds raised by the modelled code.  Message strings are
kept only for `ParseError`, whose texts are built by `util::format` from
string literals and the offending input; the other exception messages
interpolate `util::type_name<T>()` (compiler-generated type names) and are
elided. -/
inductive Err where
  /-- `json::ParseError` with its formatted message. -/
  | parseError (msg : String)
  /-- `json::BadTypeError` (subclass of `ObjectError`), thrown by `TypeConversion`. -/
  | badType
  /-- `json::ObjectError` (the base class), thrown by the extraction visitors. -/
  | objectError
  /-- `util::ExtractionError`, thrown by `util::extract<T>`. -/
  | extractionError
  /-- `std::out_of_range`, thrown by `std::map::at` / `std::vector::at`. -/
  | outOfRange
  /-- `json::FieldNotFoundError`, thrown by the structured locator. -/
  | fieldNotFound
deriving DecidableEq, Repr

mutual
/-- The value model: mirrors `Object::ValueType = boost::variant<boost::blank,
Null, Str, Int, Double, Bool, Arr, Obj>` from `json_unstructured.h`. -/
inductive Object where
  | blank
  | null
  | str (s : String)
  | int (n : Int)
  | double (q : ℚ)
  | bool (b : Bool)
  | arr (xs : ObjList)
  | obj (m : ObjMap)

/-- `std::vector<Object>` (the `Arr` alias). -/
inductive ObjList where
  | nil
  | cons (hd : Object) (tl : ObjList)

/-- `std::map<std::string, Object>` (the `Obj` alias): association list kept
in strictly ascending key order, the invariant `std::map` maintains by
construction. -/
inductive ObjMap where
  | nil
  | cons (k : String) (v : Object) (tl : ObjMap)
end

namespace ObjList

/-- `std::vector::push_back` appends at the end. -/
def append (l : ObjList) (x : Object) : ObjList :=
  match l with
  | .nil => .cons x .nil
  | .cons h t => .cons h (append t x)

/-- `std::vector::size`. -/
def length (l : ObjList) : Nat :=
  match l with
  | .nil => 0
  | .cons _ t => length t + 1

/-- Build an `ObjList` from a Lean list (vector construction order). -/
def ofList (l : List Object) : ObjList :=
  match l with
  | [] => .nil
  | x :: t => .cons x (ofList t)

/-- The last element, if any (`std::vector::back`). -/
def back? (l : ObjList) : Option Object :=
  match l with
  | .nil => none
  | .cons x .nil => some x
  | .cons _ t => back? t

end ObjList

namespace ObjMap

/-- `std::map::find` as an option (list scan; with the sortedness invariant
this agrees with the tree search `std::map` performs). -/
def find? (m : ObjMap) (k : String) : Option Object :=
  match m with
  | .nil => none
  | .cons k' v t => if k' = k then some v else find? t k

/-- `obj.find(name) != obj.end()`. -/
def contains (m : ObjMap) (k : String) : Bool :=
  (find? m k).isSome

/-- `std::map::operator[]` followed by assignment: inserts at the sorted
position, or overwrites the value of an existing key in place. -/
def insert (m : ObjMap) (k : String) (v : Object) : ObjMap :=
  match m with
  | .nil => .cons k v .nil
  | .cons k' v' t =>
    if k < k' then .cons k v (.cons k' v' t)
    else if k = k' then .cons k v t
    else .cons k' v' (insert t k v)

/-- The keys in iteration order (used by `ExtractKeysFromObj`). -/
def keysOf (m : ObjMap) : List String :=
  match m with
  | .nil => []
  | .cons k _ t => k :: keysOf t

/-- `std::map` iteration order is strictly ascending in the key; every
`std::map` satisfies this by construction, so it is the well-formedness
assumption for maps supplied from outside the modelled operations. -/
def SortedKeys (m : ObjMap) : Prop :=
  (keysOf m).Pairwise (· < ·)

end ObjMap

/-- `Property` from `json_unstructured.h`: a transient name/value pair. -/
structure Property where
  name : String
  value : Object

/-- `Object::is<Obj>()`. -/
def Object.isMapping : Object → Bool
  | .obj _ => true
  | _ => false

/-- `Object::is<Arr>()`. -/
def Object.isSequence : Object → Bool
  | .arr _ => true
  | _ => false

/-- `Object::is<Double>()`. -/
def Object.isFloat : Object → Bool
  | .double _ => true
  | _ => false

/-- `Object::is<Int>()`. -/
def Object.isInteger : Object → Bool
  | .int _ => true
  | _ => false

/-- `Object::is<Str>()`. -/
def Object.isString : Object → Bool
  | .str _ => true
  | _ => false

mutual
/-- `Object::operator==` from `json_unstructured.cpp`:
`isEqual<boost::blank, Str, Int, Double, Bool, Arr, Obj>(*this, rhs)` —
true iff some listed variant is active in both sides with equal payloads.
`NullType` is absent from the template argument list, so two `Null` objects
never compare equal; `boost::blank` is present and `boost::blank`'s
`operator==` is constantly true, so two `Empty` objects do compare equal. -/
def objEq : Object → Object → Bool
  | .blank, .blank => true
  | .str a, .str b => a == b
  | .int a, .int b => a == b
  | .double a, .double b => a == b
  | .bool a, .bool b => a == b
  | .arr a, .arr b => listEq a b
  | .obj a, .obj b => mapEq a b
  | _, _ => false

/-- `std::vector<Object>::operator==`: equal sizes and elementwise
`Object::operator==`. -/
def listEq : ObjList → ObjList → Bool
  | .nil, .nil => true
  | .cons x xs, .cons y ys => objEq x y && listEq xs ys
  | _, _ => false

/-- `std::map<std::string, Object>::operator==`: equal sizes and pairwise
equal keys and values. -/
def mapEq : ObjMap → ObjMap → Bool
  | .nil, .nil => true
  | .cons k v t, .cons k' v' t' => k == k' && objEq v v' && mapEq t t'
  | _, _ => false
end

mutual
/-- Structural identity of two value trees (all eight variants compared by
payload, `Null` equal to `Null`).  This is the specification-side notion
used to characterise what `Object::operator==` actually computes. -/
def structEq : Object → Object → Bool
  | .blank, .blank => true
  | .null, .null => true
  | .str a, .str b => a == b
  | .int a, .int b => a == b
  | .double a, .double b => a == b
  | .bool a, .bool b => a == b
  | .arr a, .arr b => structListEq a b
  | .obj a, .obj b => structMapEq a b
  | _, _ => false

/-- Pointwise structural identity of sequences. -/
def structListEq : ObjList → ObjList → Bool
  | .nil, .nil => true
  | .cons x xs, .cons y ys => structEq x y && structListEq xs ys
  | _, _ => false

/-- Pointwise structural identity of mappings. -/
def structMapEq : ObjMap → ObjMap → Bool
  | .nil, .nil => true
  | .cons k v t, .cons k' v' t' => k == k' && structEq v v' && structMapEq t t'
  | _, _ => false
end

mutual
/-- Does a value tree avoid the `Null` variant everywhere? -/
def nullFree : Object → Bool
  | .blank => true
  | .null => false
  | .str _ => true
  | .int _ => true
  | .double _ => true
  | .bool _ => true
  | .arr xs => nullFreeList xs
  | .obj m => nullFreeMap m

/-- `nullFree` over a sequence. -/
def nullFreeList : ObjList → Bool
  | .nil => true
  | .cons x xs => nullFree x && nullFreeList xs

/-- `nullFree` over a mapping's values. -/
def nullFreeMap : ObjMap → Bool
  | .nil => true
  | .cons _ v t => nullFree v && nullFreeMap t
end

end JsonUtil

namespace JsonUtil

/-! ### Character classes and decimal digits -/

/-- `std::isdigit` on the ASCII range. -/
def isDig (c : Char) : Bool :=
  48 ≤ c.toNat && c.toNat ≤ 57

/-- `std::isspace` (the characters `operator>>` skips). -/
def isSpaceC (c : Char) : Bool :=
  c.toNat == 32 || (9 ≤ c.toNat && c.toNat ≤ 13)

/-- Numeric value of a decimal digit character. -/
def digVal (c : Char) : Nat := c.toNat - 48

/-- The decimal digit character for `d < 10`. -/
def digChar (d : Nat) : Char := Char.ofNat (48 + d)

/-- Accumulate the decimal value of a digit string, most significant first
(the loop a `std::stringstream` extraction performs). -/
def decFold : Nat → List Char → Nat
  | v, [] => v
  | v, c :: t => decFold (v * 10 + digVal c) t

/-- Decimal digits of a natural number, emitted onto an accumulator
(the rendering `operator<<` performs). -/
def natDecAux : Nat → List Char → List Char
  | 0, acc => acc
  | n + 1, acc => natDecAux ((n + 1) / 10) (digChar ((n + 1) % 10) :: acc)
decreasing_by exact Nat.div_lt_self (Nat.succ_pos n) (by decide)

/-- Decimal rendering of a natural number. -/
def natDec (n : Nat) : List Char :=
  if n = 0 then ['0'] else natDecAux n []

/-- Decimal rendering of an integer: `ss << val` for an `std::int64_t`. -/
def intDec (n : Int) : List Char :=
  if n < 0 then '-' :: natDec n.natAbs else natDec n.toNat

/-! ### Serialization (`Object::serialize`, json_unstructured.cpp:449-510) -/

/-- Rendering of a `Double` payload.  The C++ code streams the `double`
with the default 6-significant-digit general format; that is IEEE-754
binary formatting, which this model does not reproduce (no claim evaluates
`Float` serialization).  This stand-in renders the exact rational. -/
def serializeDouble (q : ℚ) : List Char :=
  if q.den = 1 then intDec q.num
  else intDec q.num ++ '/' :: natDec q.den

mutual
/-- `Object::serialize`: the compact form.  `Empty` renders as the empty
string, `Str` is surrounded with `"` with no further escaping, `Arr` uses
`[e1,e2,...]`, `Obj` uses `{"k1":v1,...}` in map iteration order. -/
def serializeO : Object → List Char
  | .blank => []
  | .null => 'n' :: 'u' :: 'l' :: 'l' :: []
  | .str s => '"' :: (s.data ++ ['"'])
  | .int n => intDec n
  | .double q => serializeDouble q
  | .bool b => if b then 't' :: 'r' :: 'u' :: 'e' :: [] else 'f' :: 'a' :: 'l' :: 's' :: 'e' :: []
  | .arr xs => '[' :: (serializeL xs ++ [']'])
  | .obj m => '{' :: (serializeM m ++ ['}'])

/-- Sequence elements joined by `,` (the `i < size()-1` separator logic). -/
def serializeL : ObjList → List Char
  | .nil => []
  | .cons x .nil => serializeO x
  | .cons x (.cons y t) => serializeO x ++ ',' :: serializeL (.cons y t)

/-- Mapping entries `"k":v` joined by `,`. -/
def serializeM : ObjMap → List Char
  | .nil => []
  | .cons k v .nil => '"' :: (k.data ++ '"' :: ':' :: serializeO v)
  | .cons k v (.cons k' v' t) =>
    '"' :: (k.data ++ '"' :: ':' :: serializeO v) ++ ',' :: serializeM (.cons k' v' t)
end

/-- `Object::serialize` at the `std::string` interface. -/
def Object.serialize (o : Object) : String :=
  String.mk (serializeO o)

namespace Parser

/-! ### Classification predicates (json_unstructured.cpp:130-234) -/

/-- `Parser::find`: scan for `needle`, giving up at the first character
that is neither the needle, a space nor a tab. -/
def findC : List Char → Char → Bool
  | [], _ => false
  | c :: rest, needle =>
    if c = needle then true
    else if c ≠ ' ' ∧ c ≠ '\t' then false
    else findC rest needle

/-- `Parser::arr`: does `s` open a `[` after only spaces/tabs? -/
def arrP (s : List Char) : Bool := findC s '['

/-- `Parser::obj`: does `s` open a `{` after only spaces/tabs? -/
def objP (s : List Char) : Bool := findC s '{'

/-- The scanning loop of `Parser::iPos` from index 1: position of the last
character of the leading digit run (`it - s.begin() - 1` at the first
non-digit, `s.size() - 1` when the end is reached). -/
def iGo : List Char → Nat → Nat
  | [], idx => idx - 1
  | c :: t, idx => if isDig c then iGo t (idx + 1) else idx - 1

/-- `Parser::iPos`: `none` models the `size_t(-1)` failure sentinel. -/
def iPos (s : List Char) : Option Nat :=
  match s with
  | [] => none
  | c :: t => if c = '-' ∨ isDig c then some (iGo t 1) else none

/-- The `size_t` comparison `iPos(x) == x.size() - 1` with both sides
possibly `size_t(-1)` (an empty `x` makes `x.size() - 1` wrap to the same
sentinel, so the comparison is then true). -/
def iPosEqLast (l : List Char) : Bool :=
  match iPos l with
  | none => l.isEmpty
  | some p => p == l.length - 1

/-- `Parser::i`: the input is a leading `-` or digit followed only by
digits (note: the bare string `-` passes, since `iPos("-") = 0 = size-1`). -/
def iP (s : List Char) : Bool :=
  match iPos s with
  | none => false
  | some pos => pos == s.length - 1

/-- The second `if` of `Parser::dbl`: `e`/`E` immediately after the digit
run, with a further integer-shaped tail. -/
def dblSecond (s : List Char) (pos : Nat) : Bool :=
  let c1 := s.getD (pos + 1) ' '
  if (c1 = 'e' ∨ c1 = 'E') ∧ s.length - 1 > pos + 1 then
    iPosEqLast (s.drop (pos + 2))
  else false

/-- `Parser::dbl` (json_unstructured.cpp:176-203). -/
def dblP (s : List Char) : Bool :=
  match iPos s with
  | none => false
  | some pos =>
    if pos == s.length - 1 then false
    else
      let c1 := s.getD (pos + 1) ' '
      if c1 = '.' ∧ s.length - 1 > pos + 1 then
        let mid := s.drop (pos + 2)
        if iPosEqLast mid then true
        else
          match iPos mid with
          | none => false
          | some midPos =>
            let c2 := mid.getD (midPos + 1) ' '
            if c2 = 'e' ∨ c2 = 'E' then iPosEqLast (mid.drop (midPos + 2))
            else dblSecond s pos
      else dblSecond s pos

/-- The interior scan of `Parser::str` over `[begin+1, end-1)`: fail on a
quote not preceded by a backslash.  (For a one-character input the C++
iterator arithmetic `end()-1` walks past the buffer — undefined behaviour;
we model the loop as empty there.) -/
def strChk : Char → List Char → Bool
  | _, [] => true
  | _, [_] => true
  | prev, c :: rest => if c = '"' ∧ prev ≠ '\\' then false else strChk c rest

/-- `Parser::str`: starts with `"`, no unescaped interior `"`, ends with `"`. -/
def strP (s : List Char) : Bool :=
  match s with
  | [] => false
  | c :: rest =>
    if c ≠ '"' then false
    else strChk c rest && ((c :: rest).getLast?.getD ' ' == '"')

/-- `Parser::b`: exactly `true` or `false`. -/
def bP (s : List Char) : Bool :=
  decide (s = ['t', 'r', 'u', 'e']) || decide (s = ['f', 'a', 'l', 's', 'e'])

/-- `Parser::null`: exactly `null`. -/
def nullP (s : List Char) : Bool :=
  decide (s = ['n', 'u', 'l', 'l'])

/-! ### Primitive extraction -/

/-- `util::stripQuotes`: remove one `'` or `"` at the back, then one at the
front.  (The source calls `back()`/`front()` on a possibly empty string —
undefined behaviour we guard with identity; the parser only reaches this
through `strP`, which guarantees a leading quote.) -/
def stripQ (l : List Char) : List Char :=
  match l with
  | [] => []
  | _ :: _ =>
    let b := l.getLast?.getD ' '
    let r := if b = '\'' ∨ b = '"' then l.dropLast else l
    match r with
    | [] => []
    | c :: t => if c = '\'' ∨ c = '"' then t else r

/-- `util::extract<int>`: a `std::stringstream` extraction into a 32-bit
`int` — skip whitespace, optional sign, a nonempty digit run (further
characters are simply left unconsumed), failing on overflow past the
`int` range (C++11 `num_get` sets `failbit`). -/
def extractInt (l : List Char) : Option Int :=
  let l1 := l.dropWhile isSpaceC
  let c0 := l1.headD ' '
  let l2 := if c0 = '-' ∨ c0 = '+' then l1.tail else l1
  let digits := l2.takeWhile isDig
  if digits.isEmpty then none
  else
    let v : Int := (decFold 0 digits : Nat)
    let v := if c0 = '-' then -v else v
    if -2147483648 ≤ v ∧ v ≤ 2147483647 then some v else none

/-- `util::extract<double>`: a `std::stringstream` extraction of a
`double` — whitespace, optional sign, digits with optional fraction, and
an optional exponent that must carry at least one digit (otherwise the
whole extraction fails).  The value is modelled as the exact rational the
decimal text denotes; the C++ conversion rounds it to the nearest binary
`double`, a floating-point refinement no claim depends on. -/
def extractDouble (l : List Char) : Option ℚ :=
  let l1 := l.dropWhile isSpaceC
  let c0 := l1.headD ' '
  let l2 := if c0 = '-' ∨ c0 = '+' then l1.tail else l1
  let a := l2.takeWhile isDig
  let l3 := l2.drop a.length
  let fracSplit : List Char × List Char :=
    match l3 with
    | '.' :: t => (t.takeWhile isDig, t.drop (t.takeWhile isDig).length)
    | _ => ([], l3)
  let b := fracSplit.1
  if a.isEmpty ∧ b.isEmpty then none
  else
    let mant : ℚ := ((decFold 0 (a ++ b) : Nat) : ℚ) / (10 : ℚ) ^ b.length
    let mant := if c0 = '-' then -mant else mant
    match fracSplit.2 with
    | 'e' :: t | 'E' :: t =>
      let e0 := t.headD ' '
      let t2 := if e0 = '-' ∨ e0 = '+' then t.tail else t
      let c := t2.takeWhile isDig
      if c.isEmpty then none
      else
        let ev := decFold 0 c
        some (if e0 = '-' then mant / (10 : ℚ) ^ ev else mant * (10 : ℚ) ^ ev)
    | _ => some mant

/-! ### Key scanning (`Parser::findKey`, json_unstructured.cpp:11-33) -/

/-- The `findKey` scan.  `seen` holds the consumed characters in reverse
(for the error message and the `*(it-1)` escape check); `st` is `none`
before an opening quote and carries the key characters in reverse after. -/
def findKeyGo : List Char → List Char → Option (List Char) → Except Err String
  | [], _, st =>
    match st with
    | some acc => .ok (String.mk acc.reverse)
    | none => .ok ""
  | c :: rest, seen, st =>
    match st with
    | none =>
      if c = ':' then
        .error (.parseError ("Could not find a key before the value started, looked in `"
          ++ String.mk seen.reverse
          ++ "' before encountering the beginning of a value. Keys must be quoted."))
      else if c = '}' then .ok ""
      else if c = '"' then findKeyGo rest (c :: seen) (some [])
      else findKeyGo rest (c :: seen) none
    | some acc =>
      if c = '"' ∧ seen.headD ' ' ≠ '\\' then .ok (String.mk acc.reverse)
      else findKeyGo rest (c :: seen) (some (c :: acc))

/-- `Parser::findKey` over a whole buffer. -/
def findKey (l : List Char) : Except Err String :=
  findKeyGo l [] none

end Parser

end JsonUtil

namespace JsonUtil

namespace Parser

/-! ### The locator service (spec-modelled)

`Parser::parseArr`/`parseObj` delegate value-boundary discovery to
`JsonStructured`, whose scanning is the vendored js0n library — code of
this repository that is not under `src/`.  The locator's contract is
spec-modelled below; `JsonStructured::lookupArray`'s and
`Parser::lookupValue`'s quote-widening (json.cpp:55-67,
json_unstructured.cpp:149-164) re-attach the `"` delimiters js0n strips,
so the modelled net effect hands back each raw value substring with its
quotes intact. -/

/-- Trim surrounding whitespace from a raw value substring. -/
def trimC (l : List Char) : List Char :=
  ((l.dropWhile isSpaceC).reverse.dropWhile isSpaceC).reverse

/-- Modelled from the spec: the top-level comma-splitting scan of the js0n
locator.  Walks the characters after the opening bracket tracking nesting
depth and in-string state; emits the chunk collected so far at each
top-level `,` and finishes at the top-level closing bracket (a trailing
empty chunk, as after a trailing comma or in `[]`, is dropped). -/
def splitGo : List Char → Nat → Bool → List Char → List (List Char) →
    Except Err (List (List Char))
  | [], _, _, _, _ =>
    .error (.parseError "Found beginning of value with no end")
  | c :: rest, depth, inStr, cur, acc =>
    if inStr then
      if c = '"' ∧ cur.headD ' ' ≠ '\\' then splitGo rest depth false (c :: cur) acc
      else splitGo rest depth true (c :: cur) acc
    else if c = '"' then splitGo rest depth true (c :: cur) acc
    else if c = '[' ∨ c = '{' then splitGo rest (depth + 1) false (c :: cur) acc
    else if (c = ']' ∨ c = '}') ∧ depth > 0 then splitGo rest (depth - 1) false (c :: cur) acc
    else if c = ']' ∨ c = '}' then
      let last := trimC cur.reverse
      .ok (if last.isEmpty then acc.reverse else (last :: acc).reverse)
    else if c = ',' ∧ depth = 0 then splitGo rest 0 false [] (trimC cur.reverse :: acc)
    else splitGo rest depth false (c :: cur) acc

/-- Modelled from the spec: `JsonStructured::lookupArray({}, true)` over a
bracketed expression — the positional value substrings, in order, strings
keeping their quotes. -/
def splitArr (l : List Char) : Except Err (List (List Char)) :=
  match l.dropWhile (fun c => c = ' ' ∨ c = '\t') with
  | '[' :: rest => splitGo rest 0 false [] []
  | _ => .error (.parseError "Can't read array index `0'")

/-- Modelled from the spec: the braced expression split into top-level
`"key": value` chunks. -/
def splitObjPairs (l : List Char) : Except Err (List (List Char)) :=
  match l.dropWhile (fun c => c = ' ' ∨ c = '\t') with
  | '{' :: rest => splitGo rest 0 false [] []
  | _ => .error (.parseError "Can't find an object to scan")

/-- Skip up to and including the first `:` (the separator between a located
key and its value substring). -/
def dropToColon (l : List Char) : List Char :=
  (l.dropWhile (· ≠ ':')).drop 1

/-- Modelled from the spec: one `key: value` chunk resolved to its quoted
key (with `Parser::findKey`'s unquoted-key rejection) and raw value
substring (quotes kept, whitespace trimmed). -/
def keyVal (chunk : List Char) : Except Err (String × List Char) :=
  match findKey chunk with
  | .error e => .error e
  | .ok "" =>
    .error (.parseError ("Can't find a key for object in input: `"
      ++ String.mk chunk ++ "'. Keys must have quotation marks around them."))
  | .ok key => .ok (key, trimC (dropToColon chunk))

/-! ### The recursive classifier (`Parser::parseHelper`, json_unstructured.cpp:105-128)

The recursion is driven by a fuel argument so that every definition stays
structural (and hence kernel-computable); `parse` supplies fuel exceeding
the input length, which dominates the nesting depth, so the fuel-exhausted
branch is unreachable from the public entry point. -/

mutual
/-- `Parser::parseHelper`: classify the substring in the fixed order
array, object, double, int, bool, null, string, and fall through to
`ParseError` naming the offending text. -/
def parseHelperF : Nat → List Char → Except Err Object
  | 0, _ => .error (.parseError "nesting depth exceeded")
  | fuel + 1, s =>
    if arrP s then
      match splitArr s with
      | .error e => .error e
      | .ok elems =>
        match parseListF fuel elems with
        | .error e => .error e
        | .ok vals => .ok (.arr (ObjList.ofList vals))
    else if objP s then
      match findKey s with
      | .error e => .error e
      | .ok "" =>
        .error (.parseError ("Can't find a key for object in input: `"
          ++ String.mk s ++ "'. Keys must have quotation marks around them."))
      | .ok _ =>
        match splitObjPairs s with
        | .error e => .error e
        | .ok chunks =>
          match chunks.mapM keyVal with
          | .error e => .error e
          | .ok pairs =>
            match parsePairsF fuel pairs ObjMap.nil with
            | .error e => .error e
            | .ok m => .ok (.obj m)
    else if dblP s then
      match extractDouble s with
      | some q => .ok (.double q)
      | none => .error .extractionError
    else if iP s then
      match extractInt s with
      | some v => .ok (.int v)
      | none => .error .extractionError
    else if bP s then
      if s = ['t', 'r', 'u', 'e'] then .ok (.bool true) else .ok (.bool false)
    else if nullP s then .ok .null
    else if strP s then .ok (.str (String.mk (stripQ s)))
    else
      .error (.parseError ("Encountered unknown token when processing `"
        ++ String.mk s ++ "'"))

/-- `Parser::parseArr`'s loop: recursively parse each positional substring. -/
def parseListF : Nat → List (List Char) → Except Err (List Object)
  | 0, _ => .error (.parseError "nesting depth exceeded")
  | _ + 1, [] => .ok []
  | fuel + 1, e :: rest =>
    match parseHelperF fuel e with
    | .error err => .error err
    | .ok v =>
      match parseListF fuel rest with
      | .error err => .error err
      | .ok vs => .ok (v :: vs)

/-- `Parser::parseObj`'s loop: recursively parse each value substring and
insert it under its key (`obj[key] = parseHelper(...)`, a later duplicate
key overwriting an earlier one, as `std::map::operator[]` does). -/
def parsePairsF : Nat → List (String × List Char) → ObjMap → Except Err ObjMap
  | 0, _, _ => .error (.parseError "nesting depth exceeded")
  | _ + 1, [], m => .ok m
  | fuel + 1, (k, raw) :: rest, m =>
    match parseHelperF fuel raw with
    | .error err => .error err
    | .ok v => parsePairsF fuel rest (m.insert k v)
end

/-- `Parser::parse`: the public entry point (`Parser{}.parseHelper(json)`).
The fuel `length + 2` strictly dominates the recursion depth, every level
of which consumes at least one character of its substring. -/
def parse (s : String) : Except Err Object :=
  parseHelperF (s.data.length + 2) s.data

end Parser

/-! ### Value-model operations (json_unstructured.cpp:262-388) -/

namespace Object

/-- `Object::get<T>(Path)`'s traversal (json_unstructured.h:139-151)
without the final typed extraction: empty path returns self; otherwise a
`Mapping` lookup of the first segment (`ExtractFromObj` throwing
`ObjectError` on a non-mapping, `std::map::at` throwing `std::out_of_range`
on a missing key) followed by recursion. -/
def getPath : Object → List String → Except Err Object
  | o, [] => .ok o
  | o, seg :: rest =>
    match o with
    | .obj m =>
      match m.find? seg with
      | some c => getPath c rest
      | none => .error .outOfRange
    | _ => .error .objectError

/-- The combined traversal of `Object::addProperty(Path, Property)`:
`getOrInsert<Obj>(path)` (each missing segment materialising an empty
mapping: a blank node becomes `{seg: {}}`, a mapping without the segment
gains `seg: {}`; a concrete non-mapping node raises `ObjectError`, and the
final `into<Obj&>` raises `BadTypeError` when the reached node is not a
mapping — including a blank node, since the auto-create runs only while a
segment is being consumed) followed by the insertion
`obj[prop.name] = prop.value`, handing back whether the key existed. -/
def addPropGo : Object → List String → String → Object → Except Err (Bool × Object)
  | o, [], name, v =>
    match o with
    | .obj m => .ok (m.contains name, .obj (m.insert name v))
    | _ => .error .badType
  | o, seg :: rest, name, v =>
    match o with
    | .blank =>
      match addPropGo (.obj .nil) rest name v with
      | .error e => .error e
      | .ok (had, child) => .ok (had, .obj (ObjMap.nil.insert seg child))
    | .obj m =>
      let child := (m.find? seg).getD (.obj .nil)
      match addPropGo child rest name v with
      | .error e => .error e
      | .ok (had, child') => .ok (had, .obj (m.insert seg child'))
    | _ => .error .objectError

/-- `Object::addProperty(Path, Property)` as a state transformer.  All the
throws of `getOrInsert<Obj>` happen before the map insertion, and a
missing segment's auto-created subtree is an empty mapping no later step
can fault on, so a throwing call leaves the object exactly as it was; the
wrapper returns the original object alongside the error accordingly. -/
def addProperty (o : Object) (path : List String) (p : Property) :
    Object × Except Err Bool :=
  match addPropGo o path p.name p.value with
  | .ok (had, o') => (o', .ok had)
  | .error e => (o, .error e)

/-- `Object::addProperty(Property)` (json_unstructured.cpp:269-274):
`into<Obj&>()` throws `BadTypeError` before anything is touched when the
object is not a mapping; otherwise `obj[prop.name] = prop.value`. -/
def addPropertySelf (o : Object) (p : Property) : Object × Except Err Bool :=
  match o with
  | .obj m => (.obj (m.insert p.name p.value), .ok (m.contains p.name))
  | _ => (o, .error .badType)

/-- `Object::push(Object)` (json_unstructured.cpp:281-283):
`into<Arr&>()` throws `BadTypeError` before anything is touched when the
object is not a sequence; otherwise `push_back(value)`. -/
def push (o : Object) (v : Object) : Object × Except Err Unit :=
  match o with
  | .arr xs => (.arr (xs.append v), .ok ())
  | _ => (o, .error .badType)

/-- `Object::push(Path, Object)` (json_unstructured.cpp:276-279):
`get<Arr>(path)` resolves the path without creating anything, the final
`into<Arr&>` throwing `BadTypeError` when the target is not a sequence;
on success the value is appended at the target. -/
def pushPath : Object → List String → Object → Except Err Object
  | o, [], v =>
    match o with
    | .arr xs => .ok (.arr (xs.append v))
    | _ => .error .badType
  | o, seg :: rest, v =>
    match o with
    | .obj m =>
      match m.find? seg with
      | some c =>
        match pushPath c rest v with
        | .error e => .error e
        | .ok c' => .ok (.obj (m.insert seg c'))
      | none => .error .outOfRange
    | _ => .error .objectError

/-- `Object::keys` (json_unstructured.cpp:382-384): the keys of a mapping
in iteration order; `ExtractKeysFromObj` throws `ObjectError` (not its
subclass `BadTypeError`) on any other variant. -/
def keys : Object → Except Err (List String)
  | .obj m => .ok m.keysOf
  | _ => .error .objectError

/-- `Object::length` (json_unstructured.cpp:386-388): `into<Arr>().size()`,
`BadTypeError` on a non-sequence. -/
def length : Object → Except Err Nat
  | .arr xs => .ok xs.length
  | _ => .error .badType

end Object

end JsonUtil

namespace JsonUtil

/-! ## Equality characterisation (claim C2) -/

mutual
theorem objEq_characterisation : ∀ (a b : Object),
    objEq a b = (structEq a b && nullFree a)
  | .blank, b => by cases b <;> simp [objEq, structEq, nullFree]
  | .null, b => by cases b <;> simp [objEq, structEq, nullFree]
  | .str _, b => by cases b <;> simp [objEq, structEq, nullFree]
  | .int _, b => by cases b <;> simp [objEq, structEq, nullFree]
  | .double _, b => by cases b <;> simp [objEq, structEq, nullFree]
  | .bool _, b => by cases b <;> simp [objEq, structEq, nullFree]
  | .arr xs, b => by
    cases b <;> simp [objEq, structEq, nullFree]
    exact listEq_characterisation xs _
  | .obj m, b => by
    cases b <;> simp [objEq, structEq, nullFree]
    exact mapEq_characterisation m _

theorem listEq_characterisation : ∀ (a b : ObjList),
    listEq a b = (structListEq a b && nullFreeList a)
  | .nil, .nil => rfl
  | .nil, .cons _ _ => rfl
  | .cons _ _, .nil => rfl
  | .cons x xs, .cons y ys => by
    show (objEq x y && listEq xs ys) =
      ((structEq x y && structListEq xs ys) && (nullFree x && nullFreeList xs))
    rw [objEq_characterisation x y, listEq_characterisation xs ys]
    cases structEq x y <;> cases nullFree x <;>
      cases structListEq xs ys <;> cases nullFreeList xs <;> rfl

theorem mapEq_characterisation : ∀ (a b : ObjMap),
    mapEq a b = (structMapEq a b && nullFreeMap a)
  | .nil, .nil => rfl
  | .nil, .cons _ _ _ => rfl
  | .cons _ _ _, .nil => rfl
  | .cons k v t, .cons k' v' t' => by
    show ((k == k') && objEq v v' && mapEq t t') =
      (((k == k') && structEq v v' && structMapEq t t') && (nullFree v && nullFreeMap t))
    rw [objEq_characterisation v v', mapEq_characterisation t t']
    cases k == k' <;> cases structEq v v' <;> cases nullFree v <;>
      cases structMapEq t t' <;> cases nullFreeMap t <;> rfl
end

/-- C2 (corrected).  `Object::operator==` holds exactly when the two trees
are structurally identical and the left tree contains no `Null` anywhere:
`Empty` does equal `Empty`, while `Null` — or any tree with a `Null`
inside — equals nothing, not even itself.  (The claim's "an `Empty` never
compares equal to anything" and its "same active variant and equal
contents" biconditional both fail on the code: `isEqual`'s template list
includes `boost::blank` but omits `NullType`.) -/
theorem claim_c2_equality (a b : Object) :
    objEq a b = (structEq a b && nullFree a) :=
  objEq_characterisation a b

/-- C2 counterexample: two `Empty` objects compare equal (refuting "an
`Empty` never compares equal to anything, including another `Empty`"),
and two `Null` objects — same active variant, equal contents — compare
unequal (refuting the "if" direction of the claimed biconditional). -/
theorem claim_c2_counterexample :
    objEq Object.blank Object.blank = true ∧
    objEq Object.null Object.null = false :=
  ⟨rfl, rfl⟩

/-! ## Numeric classification (claim C4) -/

/-- C4: `"123"` parses to an `Integer`, `"123.45"` and `"123e3"` to a
`Float`, and `"123."` matches no classification and fails with
`ParseError` naming the text. -/
theorem claim_c4_numeric_classification :
    Parser.parse "123" = .ok (.int 123) ∧
    (∃ q : ℚ, Parser.parse "123.45" = .ok (.double q)) ∧
    (∃ q : ℚ, Parser.parse "123e3" = .ok (.double q)) ∧
    Parser.parse "123." =
      .error (.parseError "Encountered unknown token when processing `123.'") :=
  ⟨rfl, ⟨_, rfl⟩, ⟨_, rfl⟩, rfl⟩

/-! ## Fall-through to ParseError (claim C8) -/

theorem parseHelperF_unknown (fuel : Nat) (s : List Char)
    (h1 : Parser.arrP s = false) (h2 : Parser.objP s = false)
    (h3 : Parser.dblP s = false) (h4 : Parser.iP s = false)
    (h5 : Parser.bP s = false) (h6 : Parser.nullP s = false)
    (h7 : Parser.strP s = false) :
    Parser.parseHelperF (fuel + 1) s =
      .error (.parseError ("Encountered unknown token when processing `"
        ++ String.mk s ++ "'")) := by
  simp [Parser.parseHelperF, h1, h2, h3, h4, h5, h6, h7]

/-- C8: the empty string and `{true: "x"}` (an unquoted key) each fail
with a `ParseError`; in general any input on which all seven
classification predicates fail is rejected with a `ParseError` naming the
offending text. -/
theorem claim_c8_parse_errors :
    Parser.parse "" =
      .error (.parseError "Encountered unknown token when processing `'") ∧
    Parser.parse "\x7btrue: \"x\"\x7d" =
      .error (.parseError "Could not find a key before the value started, looked in `\x7btrue' before encountering the beginning of a value. Keys must be quoted.") ∧
    (∀ s : String, Parser.arrP s.data = false → Parser.objP s.data = false →
      Parser.dblP s.data = false → Parser.iP s.data = false →
      Parser.bP s.data = false → Parser.nullP s.data = false →
      Parser.strP s.data = false →
      Parser.parse s =
        .error (.parseError ("Encountered unknown token when processing `"
          ++ s ++ "'"))) := by
  refine ⟨rfl, rfl, ?_⟩
  intro s h1 h2 h3 h4 h5 h6 h7
  show Parser.parseHelperF (s.data.length + 1 + 1) s.data = _
  rw [parseHelperF_unknown _ _ h1 h2 h3 h4 h5 h6 h7]

/-- C8 witness: the single character `x` satisfies none of the seven
classifications and is rejected with the naming `ParseError`. -/
theorem claim_c8_witness :
    Parser.parse "x" =
      .error (.parseError ("Encountered unknown token when processing `"
        ++ "x" ++ "'")) :=
  claim_c8_parse_errors.2.2 "x" rfl rfl rfl rfl rfl rfl rfl

/-! ## Error atomicity of the pathless mutators (claim C9) -/

/-- C9: `addProperty(Property)` on a non-`Mapping` and `push(Object)` on a
non-`Sequence` throw `BadTypeError` (from `into<T&>`) before any mutation,
leaving the object exactly as it was. -/
theorem claim_c9_error_atomicity :
    (∀ (o : Object) (p : Property), o.isMapping = false →
      o.addPropertySelf p = (o, .error .badType)) ∧
    (∀ (o v : Object), o.isSequence = false →
      o.push v = (o, .error .badType)) := by
  constructor
  · intro o p h
    cases o <;> simp_all [Object.isMapping, Object.addPropertySelf]
  · intro o v h
    cases o <;> simp_all [Object.isSequence, Object.push]

/-- C9 witness: an `Integer` object rejects `addProperty` and a `String`
object rejects `push`, both unchanged. -/
theorem claim_c9_witness :
    (Object.int 5).addPropertySelf ⟨"a", .null⟩ = (.int 5, .error .badType) ∧
    (Object.str "x").push .null = (.str "x", .error .badType) :=
  ⟨claim_c9_error_atomicity.1 (.int 5) ⟨"a", .null⟩ rfl,
   claim_c9_error_atomicity.2 (.str "x") .null rfl⟩

/-! ## Empty path on a blank object (claim C10) -/

/-- C10: `addProperty(path, prop)` with an empty path on an `Empty` object
fails with `BadTypeError` (the final `into<Obj&>` of `getOrInsert<Obj>`;
the `Empty`-to-`Mapping` auto-creation runs only while a path segment is
consumed) and leaves the object `Empty`. -/
theorem claim_c10_empty_path_blank (p : Property) :
    Object.blank.addProperty [] p = (Object.blank, .error .badType) := rfl

end JsonUtil

namespace JsonUtil
/-! ## Path-addressed insertion (claim C5) -/

/-- Is an `Except` a success?  (The non-throwing outcome of a C++ call.) -/
def isOkE {ε α : Type} : Except ε α → Bool
  | .ok _ => true
  | .error _ => false

theorem find?_insert_self : ∀ (m : ObjMap) (k : String) (v : Object),
    (m.insert k v).find? k = some v
  | .nil, k, v => by simp [ObjMap.insert, ObjMap.find?]
  | .cons k' v' t, k, v => by
    by_cases h1 : k < k'
    · simp [ObjMap.insert, h1, ObjMap.find?]
    · by_cases h2 : k = k'
      · simp [ObjMap.insert, h1, h2, ObjMap.find?]
      · have hne : ¬ k' = k := fun e => h2 e.symm
        simp [ObjMap.insert, h1, h2, ObjMap.find?, hne, find?_insert_self t k v]

theorem addPropGo_fresh : ∀ (rest : List String) (name : String) (v : Object)
    (had : Bool) (c' : Object),
    Object.addPropGo (.obj .nil) rest name v = .ok (had, c') → had = false := by
  intro rest
  induction rest with
  | nil =>
    intro name v had c' h
    simp [Object.addPropGo, ObjMap.contains, ObjMap.find?] at h
    exact h.1
  | cons seg t ih =>
    intro name v had c' h
    simp only [Object.addPropGo, ObjMap.find?, Option.getD_none] at h
    cases hrec : Object.addPropGo (.obj .nil) t name v with
    | error e => rw [hrec] at h; simp at h
    | ok r =>
      rw [hrec] at h
      obtain ⟨had0, c0⟩ := r
      simp at h
      obtain ⟨h1, h2⟩ := h
      subst h1
      exact ih name v _ c0 hrec

theorem addPropGo_spec : ∀ (path : List String) (o : Object) (name : String)
    (v : Object) (had : Bool) (o' : Object),
    Object.addPropGo o path name v = .ok (had, o') →
    had = isOkE (o.getPath (path ++ [name])) ∧
    o'.getPath (path ++ [name]) = .ok v := by
  intro path
  induction path with
  | nil =>
    intro o name v had o' h
    cases o <;> simp [Object.addPropGo] at h
    case obj m =>
      obtain ⟨h1, h2⟩ := h
      subst h1; subst h2
      constructor
      · show m.contains name = isOkE (Object.getPath (.obj m) [name])
        simp only [Object.getPath, ObjMap.contains]
        cases m.find? name <;> simp [isOkE, Object.getPath]
      · show Object.getPath (.obj (m.insert name v)) [name] = .ok v
        simp [Object.getPath, find?_insert_self]
  | cons seg rest ih =>
    intro o name v had o' h
    cases o
    case blank =>
      simp only [Object.addPropGo] at h
      cases hrec : Object.addPropGo (.obj .nil) rest name v with
      | error e => rw [hrec] at h; simp at h
      | ok r =>
        rw [hrec] at h
        obtain ⟨had0, child⟩ := r
        simp at h
        obtain ⟨hh, ho⟩ := h
        subst hh; subst ho
        constructor
        · show had0 = isOkE (Object.getPath .blank (seg :: (rest ++ [name])))
          rw [addPropGo_fresh rest name v had0 child hrec]
          rfl
        · show Object.getPath (.obj (ObjMap.nil.insert seg child))
            (seg :: (rest ++ [name])) = .ok v
          simp only [Object.getPath, find?_insert_self]
          exact (ih _ name v had0 child hrec).2
    case obj m =>
      simp only [Object.addPropGo] at h
      cases hrec : Object.addPropGo ((m.find? seg).getD (.obj .nil)) rest name v with
      | error e => rw [hrec] at h; simp at h
      | ok r =>
        rw [hrec] at h
        obtain ⟨had0, child'⟩ := r
        simp at h
        obtain ⟨hh, ho⟩ := h
        subst hh; subst ho
        constructor
        · show had0 = isOkE (Object.getPath (.obj m) (seg :: (rest ++ [name])))
          simp only [Object.getPath]
          cases hf : m.find? seg with
          | some c =>
            rw [hf] at hrec
            simp only [Option.getD_some] at hrec
            exact (ih c name v had0 child' hrec).1
          | none =>
            rw [hf] at hrec
            simp only [Option.getD_none] at hrec
            rw [addPropGo_fresh rest name v had0 child' hrec]
            rfl
        · show Object.getPath (.obj (m.insert seg child'))
            (seg :: (rest ++ [name])) = .ok v
          simp only [Object.getPath, find?_insert_self]
          cases hf : m.find? seg with
          | some c =>
            rw [hf] at hrec
            simp only [Option.getD_some] at hrec
            exact (ih c name v had0 child' hrec).2
          | none =>
            rw [hf] at hrec
            simp only [Option.getD_none] at hrec
            exact (ih _ name v had0 child' hrec).2
    all_goals simp [Object.addPropGo] at h

/-- C5: when `addProperty(path, {name, value})` returns (rather than
throws), the returned flag is true exactly when the key was already
reachable at `path ++ [name]` beforehand, and a subsequent `get` of
`path ++ [name]` on the updated object returns exactly the written
value. -/
theorem claim_c5_addProperty (o : Object) (path : List String) (p : Property)
    (had : Bool) (o' : Object)
    (h : o.addProperty path p = (o', .ok had)) :
    had = isOkE (o.getPath (path ++ [p.name])) ∧
    o'.getPath (path ++ [p.name]) = .ok p.value := by
  unfold Object.addProperty at h
  cases hg : Object.addPropGo o path p.name p.value with
  | error e => rw [hg] at h; simp at h
  | ok r =>
    rw [hg] at h
    obtain ⟨had0, o0⟩ := r
    simp at h
    obtain ⟨ho, hh⟩ := h
    subst ho; subst hh
    exact addPropGo_spec path o p.name p.value had0 o0 hg

/-- C5 witness: inserting `"a" ↦ 7` at the empty path into an empty
mapping reports "new" and is then readable. -/
theorem claim_c5_witness :
    (false = isOkE ((Object.obj .nil).getPath ([] ++ ["a"]))) ∧
    (Object.obj (ObjMap.nil.insert "a" (.int 7))).getPath ([] ++ ["a"]) =
      .ok (.int 7) :=
  claim_c5_addProperty (Object.obj .nil) [] ⟨"a", .int 7⟩ false
    (Object.obj (ObjMap.nil.insert "a" (.int 7))) rfl

end JsonUtil

namespace JsonUtil

/-! ## push requires a sequence (claim C6) -/

theorem pushPath_target_badType : ∀ (path : List String) (o v t : Object),
    o.getPath path = .ok t → t.isSequence = false →
    o.pushPath path v = .error .badType := by
  intro path
  induction path with
  | nil =>
    intro o v t hg ht
    simp [Object.getPath] at hg
    subst hg
    cases o <;> simp_all [Object.isSequence, Object.pushPath]
  | cons seg rest ih =>
    intro o v t hg ht
    cases o
    case obj m =>
      simp only [Object.getPath] at hg
      cases hf : m.find? seg with
      | none => rw [hf] at hg; simp at hg
      | some c =>
        rw [hf] at hg
        simp only [Object.pushPath, hf]
        rw [ih c v t hg ht]
    all_goals simp [Object.getPath] at hg

/-- C6: `push` requires its target to already be a `Sequence` and fails
with `BadTypeError` otherwise (both the pathless form and the path form,
which never auto-creates); on success the value is appended as the new
last element with the existing elements in order — in particular, parsing
`["hund","mjau",12]` and pushing `"hello"` yields a 4-element sequence
whose last element is the `String` `"hello"`. -/
theorem claim_c6_push :
    (∀ (o v : Object), o.isSequence = false → o.push v = (o, .error .badType)) ∧
    (∀ (xs : ObjList) (v : Object),
      (Object.arr xs).push v = (.arr (xs.append v), .ok ())) ∧
    (∀ (path : List String) (o v t : Object),
      o.getPath path = .ok t → t.isSequence = false →
      o.pushPath path v = .error .badType) ∧
    (Parser.parse "[\"hund\",\"mjau\",12]" =
      .ok (.arr (.cons (.str "hund") (.cons (.str "mjau") (.cons (.int 12) .nil)))) ∧
     (Object.arr (.cons (.str "hund") (.cons (.str "mjau")
        (.cons (.int 12) .nil)))).push (.str "hello") =
       (.arr (.cons (.str "hund") (.cons (.str "mjau") (.cons (.int 12)
          (.cons (.str "hello") .nil)))), .ok ()) ∧
     (ObjList.cons (Object.str "hund") (.cons (.str "mjau") (.cons (.int 12)
        (.cons (.str "hello") .nil)))).length = 4 ∧
     (ObjList.cons (Object.str "hund") (.cons (.str "mjau") (.cons (.int 12)
        (.cons (.str "hello") .nil)))).back? = some (.str "hello") ∧
     (Object.str "hello").isString = true ∧
     objEq (.str "hello") (.str "hello") = true) := by
  refine ⟨?_, ?_, pushPath_target_badType, rfl, rfl, rfl, rfl, rfl, ?_⟩
  · intro o v h
    cases o <;> simp_all [Object.isSequence, Object.push]
  · intro xs v
    rfl
  · simp [objEq]

/-- C6 witness: an `Integer` rejects a pathless push; a mapping whose
`"a"` entry is an `Integer` rejects a push at path `["a"]`. -/
theorem claim_c6_witness :
    (Object.int 3).push .null = (.int 3, .error .badType) ∧
    (Object.obj (ObjMap.nil.insert "a" (.int 1))).pushPath ["a"] .null =
      .error .badType :=
  ⟨claim_c6_push.1 (.int 3) .null rfl,
   claim_c6_push.2.2.1 ["a"] (Object.obj (ObjMap.nil.insert "a" (.int 1)))
     .null (.int 1) rfl rfl⟩

/-! ## keys: sorted, unique, ObjectError on non-mapping (claim C7) -/

theorem keysOf_insert_subset : ∀ (m : ObjMap) (k : String) (v : Object),
    ∀ x ∈ (m.insert k v).keysOf, x = k ∨ x ∈ m.keysOf
  | .nil, k, v => by simp [ObjMap.insert, ObjMap.keysOf]
  | .cons k' v' t, k, v => by
    intro x hx
    by_cases h1 : k < k'
    · simp [ObjMap.insert, h1, ObjMap.keysOf] at hx ⊢
      tauto
    · by_cases h2 : k = k'
      · simp [ObjMap.insert, h1, h2, ObjMap.keysOf] at hx ⊢
        tauto
      · simp [ObjMap.insert, h1, h2, ObjMap.keysOf] at hx ⊢
        rcases hx with hx | hx
        · tauto
        · rcases keysOf_insert_subset t k v x hx with hx' | hx' <;> tauto

theorem mem_keysOf_insert : ∀ (m : ObjMap) (k : String) (v : Object),
    k ∈ (m.insert k v).keysOf
  | .nil, k, v => by simp [ObjMap.insert, ObjMap.keysOf]
  | .cons k' v' t, k, v => by
    by_cases h1 : k < k'
    · simp [ObjMap.insert, h1, ObjMap.keysOf]
    · by_cases h2 : k = k'
      · simp [ObjMap.insert, h1, h2, ObjMap.keysOf]
      · simp [ObjMap.insert, h1, h2, ObjMap.keysOf]
        exact mem_keysOf_insert t k v

theorem sortedKeys_insert : ∀ (m : ObjMap) (k : String) (v : Object),
    m.SortedKeys → (m.insert k v).SortedKeys
  | .nil, k, v => by
    intro _
    simp [ObjMap.insert, ObjMap.SortedKeys, ObjMap.keysOf]
  | .cons k' v' t, k, v => by
    intro h
    simp only [ObjMap.SortedKeys, ObjMap.keysOf, List.pairwise_cons] at h
    obtain ⟨h1, h2⟩ := h
    by_cases hk1 : k < k'
    · have he : (ObjMap.cons k' v' t).insert k v = .cons k v (.cons k' v' t) := by
        simp [ObjMap.insert, hk1]
      rw [he]
      simp only [ObjMap.SortedKeys, ObjMap.keysOf, List.pairwise_cons]
      refine ⟨?_, h1, h2⟩
      intro a ha
      simp only [List.mem_cons] at ha
      rcases ha with rfl | ha
      · exact hk1
      · exact lt_trans hk1 (h1 a ha)
    · by_cases hk2 : k = k'
      · have he : (ObjMap.cons k' v' t).insert k v = .cons k v t := by
          simp [ObjMap.insert, hk1, hk2]
        rw [he]
        simp only [ObjMap.SortedKeys, ObjMap.keysOf, List.pairwise_cons]
        exact ⟨fun a ha => hk2 ▸ h1 a ha, h2⟩
      · have hk3 : k' < k := by
          rcases lt_trichotomy k k' with hlt | heq | hgt
          · exact absurd hlt hk1
          · exact absurd heq hk2
          · exact hgt
        have he : (ObjMap.cons k' v' t).insert k v = .cons k' v' (t.insert k v) := by
          simp [ObjMap.insert, hk1, hk2]
        rw [he]
        simp only [ObjMap.SortedKeys, ObjMap.keysOf, List.pairwise_cons]
        constructor
        · intro a ha
          rcases keysOf_insert_subset t k v a ha with rfl | ha'
          · exact hk3
          · exact h1 a ha'
        · exact sortedKeys_insert t k v h2

theorem sortedKeys_nodup {m : ObjMap} (h : m.SortedKeys) : m.keysOf.Nodup :=
  h.imp ne_of_lt

/-- C7 (corrected).  With the `std::map` sortedness invariant: `keys()` on
a `Mapping` returns each key exactly once in strictly ascending order;
maps built by inserting in any order satisfy the invariant (so iteration
order is independent of insertion order); inserting the same key twice
leaves exactly one `keys()` entry for it; and `keys()` on a non-`Mapping`
fails with `ObjectError` — the base class, not the `BadTypeError` subclass
the claim names. -/
theorem claim_c7_keys :
    (∀ m : ObjMap, m.SortedKeys →
      Object.keys (.obj m) = .ok m.keysOf ∧
      m.keysOf.Pairwise (· < ·) ∧ m.keysOf.Nodup) ∧
    (∀ l : List (String × Object),
      (l.foldl (fun m kv => m.insert kv.1 kv.2) ObjMap.nil).SortedKeys) ∧
    (∀ (m : ObjMap) (k : String) (v w : Object), m.SortedKeys →
      ((m.insert k v).insert k w).keysOf.count k = 1) ∧
    (∀ o : Object, o.isMapping = false → Object.keys o = .error .objectError) := by
  refine ⟨?_, ?_, ?_, ?_⟩
  · intro m h
    exact ⟨rfl, h, sortedKeys_nodup h⟩
  · intro l
    have key : ∀ (l : List (String × Object)) (m : ObjMap), m.SortedKeys →
        (l.foldl (fun m kv => m.insert kv.1 kv.2) m).SortedKeys := by
      intro l
      induction l with
      | nil => intro m hm; exact hm
      | cons kv t ih => intro m hm; exact ih _ (sortedKeys_insert _ _ _ hm)
    exact key l .nil (by simp [ObjMap.SortedKeys, ObjMap.keysOf])
  · intro m k v w h
    have hs : ((m.insert k v).insert k w).SortedKeys :=
      sortedKeys_insert _ _ _ (sortedKeys_insert _ _ _ h)
    exact List.count_eq_one_of_mem (sortedKeys_nodup hs) (mem_keysOf_insert _ _ _)
  · intro o h
    cases o <;> simp_all [Object.isMapping, Object.keys]

/-- C7 counterexample: `keys()` on an `Integer` raises `ObjectError`
(`ExtractKeysFromObj`'s generic case), which is not the claimed
`BadTypeError`. -/
theorem claim_c7_counterexample :
    Object.keys (.int 0) = .error .objectError ∧ Err.objectError ≠ Err.badType :=
  ⟨rfl, by decide⟩

/-- C7 witness: a singleton mapping lists its key; double insertion of
`"k"` into an empty mapping leaves one entry; `keys()` on a `String`
raises `ObjectError`. -/
theorem claim_c7_witness :
    Object.keys (.obj (ObjMap.nil.insert "b" (.int 1))) =
      .ok (ObjMap.nil.insert "b" (Object.int 1)).keysOf ∧
    ((ObjMap.nil.insert "k" (Object.int 1)).insert "k" (Object.int 2)).keysOf.count "k" = 1 ∧
    Object.keys (.str "s") = .error .objectError :=
  ⟨(claim_c7_keys.1 (ObjMap.nil.insert "b" (.int 1))
      (by unfold ObjMap.SortedKeys; simp [ObjMap.insert, ObjMap.keysOf])).1,
   claim_c7_keys.2.2.1 .nil "k" (.int 1) (.int 2)
      (by unfold ObjMap.SortedKeys; simp [ObjMap.keysOf]),
   claim_c7_keys.2.2.2 (.str "s") rfl⟩

end JsonUtil

namespace JsonUtil
/-! ## Integer classification (claim C3) -/

/-- The spec's integer grammar, following its words: "an optional leading
`-` followed by one or more digits and nothing else". -/
def specIntGrammar (l : List Char) : Bool :=
  match l with
  | [] => false
  | '-' :: t => !t.isEmpty && t.all isDig
  | l => l.all isDig

/-- The shape `Parser::i` actually accepts: a leading `-` or digit
followed only by digits (so the bare string `-` is accepted, and no
whitespace is skipped). -/
def IntShape : List Char → Prop
  | [] => False
  | c :: t => (c = '-' ∨ isDig c = true) ∧ ∀ x ∈ t, isDig x = true

/-- The signed decimal value of an accepted integer substring. -/
def intValOf : List Char → Int
  | [] => 0
  | c :: t =>
    if c = '-' then -((decFold 0 t : Nat) : Int) else ((decFold 0 (c :: t) : Nat) : Int)

theorem isDig_char_ne {c : Char} (h : isDig c = true) :
    c ≠ '-' ∧ c ≠ '+' ∧ c ≠ '[' ∧ c ≠ '{' ∧ c ≠ ' ' ∧ c ≠ '\t' ∧ c ≠ '"' ∧
    c ≠ 't' ∧ c ≠ 'f' ∧ c ≠ 'n' := by
  refine ⟨?_, ?_, ?_, ?_, ?_, ?_, ?_, ?_, ?_, ?_⟩ <;>
    (intro e; rw [e] at h; exact absurd h (by decide))

theorem isSpaceC_of_isDig {c : Char} (h : isDig c = true) : isSpaceC c = false := by
  simp only [isDig, Bool.and_eq_true, decide_eq_true_eq] at h
  simp only [isSpaceC, Bool.or_eq_false_iff, Bool.and_eq_false_iff,
    beq_eq_false_iff_ne, ne_eq, decide_eq_false_iff_not]
  omega

theorem takeWhile_all {p : Char → Bool} : ∀ {l : List Char},
    (∀ c ∈ l, p c = true) → l.takeWhile p = l
  | [], _ => rfl
  | c :: t, h => by
    have hc : p c = true := h c (by simp)
    simp only [List.takeWhile_cons, hc, if_pos]
    exact congrArg (c :: ·) (takeWhile_all fun x hx => h x (by simp [hx]))

theorem takeWhile_length_eq {p : Char → Bool} : ∀ {l : List Char},
    ((l.takeWhile p).length = l.length) ↔ ∀ c ∈ l, p c = true := by
  intro l
  induction l with
  | nil => simp
  | cons c t ih =>
    by_cases hc : p c = true
    · simp [List.takeWhile_cons, hc, ih]
    · simp only [Bool.not_eq_true] at hc
      simp [List.takeWhile_cons, hc]

theorem iGo_eq : ∀ (l : List Char) (idx : Nat), 1 ≤ idx →
    Parser.iGo l idx = idx + (l.takeWhile isDig).length - 1
  | [], idx, _ => by simp [Parser.iGo]
  | c :: t, idx, h => by
    by_cases hc : isDig c = true
    · simp only [Parser.iGo, hc, if_pos, List.takeWhile_cons]
      rw [iGo_eq t (idx + 1) (by omega)]
      simp [hc]
    · simp only [Bool.not_eq_true] at hc
      simp [Parser.iGo, hc, List.takeWhile_cons]

theorem iP_iff (s : List Char) : Parser.iP s = true ↔ IntShape s := by
  cases s with
  | nil => simp [Parser.iP, Parser.iPos, IntShape]
  | cons c t =>
    by_cases hc : c = '-' ∨ isDig c = true
    · have hip : Parser.iPos (c :: t) = some (Parser.iGo t 1) := by
        simp only [Parser.iPos]
        rw [if_pos hc]
      simp only [Parser.iP, hip]
      rw [iGo_eq t 1 (le_refl 1)]
      have hl : 1 + (List.takeWhile isDig t).length - 1 =
          (List.takeWhile isDig t).length := by omega
      rw [hl]
      simp only [IntShape, hc, true_and, List.length_cons, Nat.add_sub_cancel,
        beq_iff_eq]
      exact takeWhile_length_eq
    · have hip : Parser.iPos (c :: t) = none := by
        simp only [Parser.iPos]
        rw [if_neg hc]
      simp only [Parser.iP, hip]
      simp [IntShape, hc]

end JsonUtil

namespace JsonUtil

theorem list_isEmpty_false {α : Type} {l : List α} (h : l ≠ []) :
    l.isEmpty = false := by
  cases l with
  | nil => exact absurd rfl h
  | cons a t => rfl

theorem extractInt_shape (c : Char) (t : List Char)
    (hc : c = '-' ∨ isDig c = true) (ht : ∀ x ∈ t, isDig x = true)
    (hd : ∃ x ∈ c :: t, isDig x = true) :
    Parser.extractInt (c :: t) =
      (if -2147483648 ≤ intValOf (c :: t) ∧ intValOf (c :: t) ≤ 2147483647
       then some (intValOf (c :: t)) else none) := by
  rcases hc with rfl | hcd
  · have ht' : t ≠ [] := by
      rcases hd with ⟨x, hx, hdx⟩
      rcases List.mem_cons.mp hx with rfl | hx'
      · exact absurd hdx (by decide)
      · intro he
        rw [he] at hx'
        exact absurd hx' (List.not_mem_nil x)
    simp [Parser.extractInt, List.dropWhile_cons,
      (show isSpaceC '-' = false from rfl), takeWhile_all ht,
      list_isEmpty_false ht', intValOf]
  · have hne := isDig_char_ne hcd
    have hall : ∀ x ∈ c :: t, isDig x = true := by
      intro x hx
      rcases List.mem_cons.mp hx with rfl | hx'
      · exact hcd
      · exact ht x hx'
    simp [Parser.extractInt, List.dropWhile_cons, isSpaceC_of_isDig hcd,
      hne.1, hne.2.1, takeWhile_all hall, intValOf]

theorem findC_cons_ne {c : Char} (t : List Char) {n : Char}
    (h1 : c ≠ n) (h2 : c ≠ ' ') (h3 : c ≠ '\t') : Parser.findC (c :: t) n = false := by
  simp [Parser.findC, h1, h2, h3]

theorem parse_intShape (c : Char) (t : List Char)
    (hc : c = '-' ∨ isDig c = true) (ht : ∀ x ∈ t, isDig x = true)
    (hd : ∃ x ∈ c :: t, isDig x = true) (fuel : Nat) :
    Parser.parseHelperF (fuel + 1) (c :: t) =
      (if -2147483648 ≤ intValOf (c :: t) ∧ intValOf (c :: t) ≤ 2147483647
       then .ok (.int (intValOf (c :: t))) else .error .extractionError) := by
  have hne : c ≠ '[' ∧ c ≠ '{' ∧ c ≠ ' ' ∧ c ≠ '\t' ∧ c ≠ '"' ∧ c ≠ 't' ∧
      c ≠ 'f' ∧ c ≠ 'n' := by
    rcases hc with rfl | hcd
    · refine ⟨?_, ?_, ?_, ?_, ?_, ?_, ?_, ?_⟩ <;> decide
    · obtain ⟨_, _, h3, h4, h5, h6, h7, h8, h9, h10⟩ := isDig_char_ne hcd
      exact ⟨h3, h4, h5, h6, h7, h8, h9, h10⟩
  have harr : Parser.arrP (c :: t) = false :=
    findC_cons_ne t hne.1 hne.2.2.1 hne.2.2.2.1
  have hobj : Parser.objP (c :: t) = false :=
    findC_cons_ne t hne.2.1 hne.2.2.1 hne.2.2.2.1
  have hip : Parser.iPos (c :: t) = some ((List.takeWhile isDig t).length) := by
    simp only [Parser.iPos]
    rw [if_pos hc, iGo_eq t 1 (le_refl 1)]
    congr 1
    omega
  have hlen : (List.takeWhile isDig t).length = t.length := takeWhile_length_eq.mpr ht
  have hdbl : Parser.dblP (c :: t) = false := by
    simp only [Parser.dblP, hip, hlen]
    simp
  have hi : Parser.iP (c :: t) = true := (iP_iff (c :: t)).mpr ⟨hc, ht⟩
  have hb : Parser.bP (c :: t) = false := by
    simp only [Parser.bP, Bool.or_eq_false_iff, decide_eq_false_iff_not]
    refine ⟨fun he => ?_, fun he => ?_⟩
    · injection he with hh _
      exact hne.2.2.2.2.2.1 hh
    · injection he with hh _
      exact hne.2.2.2.2.2.2.1 hh
  have hnull : Parser.nullP (c :: t) = false := by
    simp only [Parser.nullP, decide_eq_false_iff_not]
    intro he
    injection he with hh _
    exact hne.2.2.2.2.2.2.2 hh
  have hstr : Parser.strP (c :: t) = false := by
    simp [Parser.strP, hne.2.2.2.2.1]
  have hext := extractInt_shape c t hc ht hd
  by_cases hr : -2147483648 ≤ intValOf (c :: t) ∧ intValOf (c :: t) ≤ 2147483647
  · rw [if_pos hr] at hext
    rw [if_pos hr]
    simp [Parser.parseHelperF, harr, hobj, hdbl, hi, hb, hnull, hstr, hext]
  · rw [if_neg hr] at hext
    rw [if_neg hr]
    simp [Parser.parseHelperF, harr, hobj, hdbl, hi, hb, hnull, hstr, hext]

/-- C3 (corrected).  `Parser::i` accepts exactly the strings whose first
character is `-` or a digit and whose remaining characters are all digits:
no whitespace is skipped, and the bare string `-` (zero digits) is
accepted, contrary to the claimed grammar.  Every accepted string holding
at least one digit parses through `util::extract<int>` — a 32-bit
extraction, not the claimed 64-bit one — yielding the `Integer` object for
values within the `int` range and `ExtractionError` beyond it. -/
theorem claim_c3_integer_classification :
    (∀ s : String, Parser.iP s.data = true ↔ IntShape s.data) ∧
    (∀ s : String, IntShape s.data → (∃ x ∈ s.data, isDig x = true) →
      Parser.parse s =
        (if -2147483648 ≤ intValOf s.data ∧ intValOf s.data ≤ 2147483647
         then .ok (.int (intValOf s.data)) else .error .extractionError)) := by
  constructor
  · intro s
    exact iP_iff s.data
  · intro s hs hd
    show Parser.parseHelperF (s.data.length + 1 + 1) s.data = _
    cases hsd : s.data with
    | nil => rw [hsd] at hs; exact hs.elim
    | cons c t =>
      rw [hsd] at hs hd
      obtain ⟨hc, ht⟩ := hs
      exact parse_intShape c t hc ht hd _

/-- C3 counterexample: `"-"` is classified as Integer by `Parser::i`
although it has no digits (and its extraction then fails), a leading space
defeats classification although the claimed grammar skips whitespace, and
`"2147483648"` — representable in 64 bits — fails with `ExtractionError`
instead of parsing to an `Integer`. -/
theorem claim_c3_counterexample :
    Parser.iP "-".data = true ∧ specIntGrammar "-".data = false ∧
    Parser.parse "-" = .error .extractionError ∧
    specIntGrammar (" 1".data.dropWhile isSpaceC) = true ∧
    Parser.iP " 1".data = false ∧
    Parser.parse " 1" =
      .error (.parseError "Encountered unknown token when processing ` 1'") ∧
    specIntGrammar "2147483648".data = true ∧
    -9223372036854775808 ≤ (2147483648 : Int) ∧
    (2147483648 : Int) ≤ 9223372036854775807 ∧
    Parser.parse "2147483648" = .error .extractionError :=
  ⟨rfl, rfl, rfl, rfl, rfl, rfl, rfl, by decide, by decide, rfl⟩

/-- C3 witness: `"12"` is classified as Integer and parses to `12`. -/
theorem claim_c3_witness :
    (Parser.iP "12".data = true ↔ IntShape "12".data) ∧
    Parser.parse "12" =
      (if -2147483648 ≤ intValOf "12".data ∧ intValOf "12".data ≤ 2147483647
       then .ok (.int (intValOf "12".data)) else .error .extractionError) :=
  ⟨claim_c3_integer_classification.1 "12",
   claim_c3_integer_classification.2 "12" (by constructor <;> decide)
     ⟨'1', by decide, by decide⟩⟩

end JsonUtil

namespace JsonUtil
/-! ## Decimal rendering round-trip (claim C1) -/

/-- Number of decimal digits emitted for `n` (0 for 0). -/
def ndigits : Nat → Nat
  | 0 => 0
  | n + 1 => ndigits ((n + 1) / 10) + 1
decreasing_by exact Nat.div_lt_self (Nat.succ_pos n) (by decide)

theorem digVal_digChar {d : Nat} (h : d < 10) : digVal (digChar d) = d := by
  interval_cases d <;> rfl

theorem isDig_digChar {d : Nat} (h : d < 10) : isDig (digChar d) = true := by
  interval_cases d <;> rfl

theorem natDecAux_succ (m : Nat) (acc : List Char) :
    natDecAux (m + 1) acc = natDecAux ((m + 1) / 10) (digChar ((m + 1) % 10) :: acc) := by
  simp only [natDecAux]

theorem ndigits_succ (m : Nat) : ndigits (m + 1) = ndigits ((m + 1) / 10) + 1 := by
  simp only [ndigits]

theorem decFold_natDecAux : ∀ (n v : Nat) (acc : List Char),
    decFold v (natDecAux n acc) = decFold (v * 10 ^ ndigits n + n) acc := by
  intro n
  induction n using Nat.strong_induction_on with
  | _ n ih =>
    rcases n with _ | m
    · intro v acc
      simp only [natDecAux, ndigits]
      simp
    · intro v acc
      rw [natDecAux_succ,
        ih ((m + 1) / 10) (Nat.div_lt_self (Nat.succ_pos m) (by decide)) v _]
      rw [show decFold (v * 10 ^ ndigits ((m + 1) / 10) + (m + 1) / 10)
            (digChar ((m + 1) % 10) :: acc)
          = decFold ((v * 10 ^ ndigits ((m + 1) / 10) + (m + 1) / 10) * 10
            + digVal (digChar ((m + 1) % 10))) acc from rfl]
      rw [digVal_digChar (Nat.mod_lt _ (by decide)), ndigits_succ]
      congr 1
      have hdm : (m + 1) / 10 * 10 + (m + 1) % 10 = m + 1 := by omega
      calc (v * 10 ^ ndigits ((m + 1) / 10) + (m + 1) / 10) * 10 + (m + 1) % 10
          = v * (10 ^ ndigits ((m + 1) / 10) * 10)
            + ((m + 1) / 10 * 10 + (m + 1) % 10) := by ring
        _ = v * 10 ^ (ndigits ((m + 1) / 10) + 1) + (m + 1) := by
            rw [hdm, pow_succ]

theorem natDecAux_all_digits : ∀ (n : Nat) (acc : List Char),
    (∀ c ∈ acc, isDig c = true) → ∀ c ∈ natDecAux n acc, isDig c = true := by
  intro n
  induction n using Nat.strong_induction_on with
  | _ n ih =>
    rcases n with _ | m
    · intro acc hacc
      simpa [natDecAux] using hacc
    · intro acc hacc
      rw [natDecAux_succ]
      refine ih ((m + 1) / 10) (Nat.div_lt_self (Nat.succ_pos m) (by decide)) _ ?_
      intro c hc
      rcases List.mem_cons.mp hc with rfl | hc'
      · exact isDig_digChar (Nat.mod_lt _ (by decide))
      · exact hacc c hc'

theorem natDecAux_length : ∀ (n : Nat) (acc : List Char),
    (natDecAux n acc).length = ndigits n + acc.length := by
  intro n
  induction n using Nat.strong_induction_on with
  | _ n ih =>
    rcases n with _ | m
    · intro acc
      simp [natDecAux, ndigits]
    · intro acc
      rw [natDecAux_succ,
        ih ((m + 1) / 10) (Nat.div_lt_self (Nat.succ_pos m) (by decide)),
        ndigits_succ]
      simp
      omega

theorem natDec_all_digits (n : Nat) : ∀ c ∈ natDec n, isDig c = true := by
  intro c hc
  unfold natDec at hc
  split at hc
  · simp at hc
    subst hc
    decide
  · exact natDecAux_all_digits n [] (by simp) c hc

theorem natDec_ne_nil (n : Nat) : natDec n ≠ [] := by
  unfold natDec
  split
  · simp
  · next h =>
    intro he
    have hl := natDecAux_length n []
    rw [he] at hl
    simp at hl
    rcases n with _ | m
    · exact h rfl
    · rw [ndigits_succ] at hl
      omega

theorem decFold_natDec (n : Nat) : decFold 0 (natDec n) = n := by
  unfold natDec
  split
  · next h => subst h; rfl
  · rw [decFold_natDecAux, show decFold (0 * 10 ^ ndigits n + n) []
      = 0 * 10 ^ ndigits n + n from rfl, Nat.zero_mul, Nat.zero_add]

theorem intValOf_intDec (n : Int) : intValOf (intDec n) = n := by
  by_cases hn : n < 0
  · have h1 : intDec n = '-' :: natDec n.natAbs := by simp [intDec, hn]
    rw [h1]
    show (if ('-' : Char) = '-' then -((decFold 0 (natDec n.natAbs) : Nat) : Int)
      else ((decFold 0 ('-' :: natDec n.natAbs) : Nat) : Int)) = n
    rw [if_pos rfl, decFold_natDec]
    omega
  · have h1 : intDec n = natDec n.toNat := by simp [intDec, hn]
    rw [h1]
    cases hnd : natDec n.toNat with
    | nil => exact absurd hnd (natDec_ne_nil _)
    | cons c t =>
      have hdig : isDig c = true :=
        natDec_all_digits n.toNat c (by rw [hnd]; simp)
      show (if c = '-' then -((decFold 0 t : Nat) : Int)
        else ((decFold 0 (c :: t) : Nat) : Int)) = n
      rw [if_neg (isDig_char_ne hdig).1, ← hnd, decFold_natDec]
      omega

/-! ## Quoted-string round-trip (claim C1) -/

theorem strChk_no_quote : ∀ (cs : List Char) (prev : Char),
    (∀ c ∈ cs, c ≠ '"') → Parser.strChk prev (cs ++ ['"']) = true
  | [], _, _ => rfl
  | c :: rest, prev, h => by
    have hc : c ≠ '"' := h c (by simp)
    cases rest with
    | nil =>
      show Parser.strChk prev [c, '"'] = true
      rw [show Parser.strChk prev [c, '"']
          = if c = '"' ∧ prev ≠ '\\' then false else Parser.strChk c ['"'] from rfl]
      rw [if_neg (fun hx => hc hx.1)]
      rfl
    | cons d t =>
      show Parser.strChk prev (c :: d :: (t ++ ['"'])) = true
      rw [show Parser.strChk prev (c :: d :: (t ++ ['"']))
          = if c = '"' ∧ prev ≠ '\\' then false
            else Parser.strChk c (d :: (t ++ ['"'])) from rfl]
      rw [if_neg (fun hx => hc hx.1)]
      exact strChk_no_quote (d :: t) c (fun x hx => h x (by simp [hx]))

theorem strP_quoted (s : List Char) (h : ∀ c ∈ s, c ≠ '"') :
    Parser.strP ('"' :: (s ++ ['"'])) = true := by
  have he : '"' :: (s ++ ['"']) = ('"' :: s) ++ ['"'] := by simp
  simp only [Parser.strP]
  rw [if_neg (by simp : ¬ (('"' : Char) ≠ '"'))]
  rw [strChk_no_quote s '"' h]
  rw [show ('"' :: (s ++ ['"'])).getLast? = some '"' from by
    rw [he]; exact List.getLast?_concat _]
  simp

theorem stripQ_quoted (s : List Char) : Parser.stripQ ('"' :: (s ++ ['"'])) = s := by
  have he : '"' :: (s ++ ['"']) = ('"' :: s) ++ ['"'] := by simp
  simp only [Parser.stripQ]
  rw [show ('"' :: (s ++ ['"'])).getLast? = some '"' from by
    rw [he]; exact List.getLast?_concat _]
  rw [show ('"' :: (s ++ ['"'])).dropLast = '"' :: s from by
    rw [he]; exact List.dropLast_concat]
  simp

theorem arrP_quote (t : List Char) : Parser.arrP ('"' :: t) = false := rfl

theorem objP_quote (t : List Char) : Parser.objP ('"' :: t) = false := rfl

theorem dblP_quote (t : List Char) : Parser.dblP ('"' :: t) = false := rfl

theorem iP_quote (t : List Char) : Parser.iP ('"' :: t) = false := rfl

theorem bP_quote (t : List Char) : Parser.bP ('"' :: t) = false := rfl

theorem nullP_quote (t : List Char) : Parser.nullP ('"' :: t) = false := rfl

theorem parseHelperF_str (fuel : Nat) (s : String) (h : ∀ c ∈ s.data, c ≠ '"') :
    Parser.parseHelperF (fuel + 1) ('"' :: (s.data ++ ['"'])) = .ok (.str s) := by
  simp [Parser.parseHelperF, arrP_quote, objP_quote, dblP_quote, iP_quote,
    bP_quote, nullP_quote, strP_quoted s.data h, stripQ_quoted]

/-- The scalar value trees for which compact serialization round-trips:
Booleans, Integers within the 32-bit `util::extract<int>` range, and
Strings containing no `"` character. -/
def ScalarRT : Object → Prop
  | .bool _ => True
  | .int n => -2147483648 ≤ n ∧ n ≤ 2147483647
  | .str s => ∀ c ∈ s.data, c ≠ '"'
  | _ => False

/-- C1 (corrected).  `parse(serialize(v)) == v` holds for the scalar trees
of `ScalarRT` (Booleans, 32-bit-range Integers, quote-free Strings).  It
fails for the claimed "every supported variant": serialized `Null`
re-parses to `Null` but `operator==` never equates two `Null`s, and
serialized `Empty` is the empty string, which raises `ParseError`. -/
theorem claim_c1_roundtrip (v : Object) (h : ScalarRT v) :
    Parser.parse v.serialize = .ok v ∧ objEq v v = true := by
  cases v with
  | blank => exact h.elim
  | null => exact h.elim
  | double q => exact h.elim
  | arr xs => exact h.elim
  | obj m => exact h.elim
  | bool b => cases b <;> exact ⟨rfl, rfl⟩
  | str s =>
    refine ⟨?_, by simp [objEq]⟩
    show Parser.parseHelperF (('"' :: (s.data ++ ['"'])).length + 1 + 1)
      ('"' :: (s.data ++ ['"'])) = .ok (.str s)
    exact parseHelperF_str _ s h
  | int n =>
    have hr : -2147483648 ≤ n ∧ n ≤ 2147483647 := h
    refine ⟨?_, by simp [objEq]⟩
    show Parser.parseHelperF ((intDec n).length + 1 + 1) (intDec n) = .ok (.int n)
    by_cases hn : n < 0
    · have hserial : intDec n = '-' :: natDec n.natAbs := by
        simp [intDec, hn]
      have hv : intValOf ('-' :: natDec n.natAbs) = n := by
        rw [← hserial]
        exact intValOf_intDec n
      have hd : ∃ x ∈ '-' :: natDec n.natAbs, isDig x = true := by
        cases hnd : natDec n.natAbs with
        | nil => exact absurd hnd (natDec_ne_nil _)
        | cons c t =>
          exact ⟨c, by simp,
            natDec_all_digits n.natAbs c (by rw [hnd]; simp)⟩
      rw [hserial]
      rw [parse_intShape '-' (natDec n.natAbs) (Or.inl rfl)
        (fun x hx => natDec_all_digits _ x hx) hd _]
      rw [hv, if_pos hr]
    · have hserial : intDec n = natDec n.toNat := by
        simp [intDec, hn]
      have hv0 : intValOf (intDec n) = n := intValOf_intDec n
      rw [hserial] at hv0
      cases hnd : natDec n.toNat with
      | nil => exact absurd hnd (natDec_ne_nil _)
      | cons c t =>
        have hall : ∀ x ∈ c :: t, isDig x = true := by
          rw [← hnd]
          exact natDec_all_digits n.toNat
        have hc : isDig c = true := hall c (by simp)
        have ht : ∀ x ∈ t, isDig x = true := fun x hx => hall x (by simp [hx])
        rw [hnd] at hv0
        rw [hserial, hnd]
        rw [parse_intShape c t (Or.inr hc) ht ⟨c, by simp, hc⟩ _]
        rw [hv0, if_pos hr]

/-- C1 counterexample: the `Null` tree serializes to `null` and re-parses
to `Null`, but `Object::operator==` makes `Null == Null` false, so
`parse(serialize(v)) == v` fails at `v = Null`. -/
theorem claim_c1_counterexample :
    Parser.parse (Object.serialize .null) = .ok .null ∧
    objEq Object.null Object.null = false :=
  ⟨rfl, rfl⟩

/-- C1 witness: the string `"hi"` round-trips. -/
theorem claim_c1_witness :
    Parser.parse (Object.serialize (.str "hi")) = .ok (.str "hi") ∧
    objEq (.str "hi") (.str "hi") = true :=
  claim_c1_roundtrip (.str "hi") (by intro c hc; fin_cases hc <;> decide)

end JsonUtil
